import Mathlib

/-!
Verification development for `get-deployment-metrics.py`, a script that
aggregates GitHub Actions deployment-workflow run metrics.

The script is embedded shallowly:

* a workflow run is the record of the fields the aggregation loop reads from
  the API response (`conclusion`, `triggering_actor`, `event`, and the
  `run_duration_ms` field of the timing call, absent when the job never ran);
* the per-workflow aggregation loop of `__main__` (lines 212-298 of the
  source) becomes a fold `aggregate` over the run list, with the Python
  unbounded integers as `Int`/`Nat`;
* Python floats are modelled as exact rationals `ℚ`; `format_number`'s
  `"{0:.2f}"` formatting becomes rounding to cents (two decimal places) with
  round-half-to-even, the rounding mode of IEEE formatting of exact halves;
* the dict-of-dicts `summary_stats` and the actor dicts become association
  lists in insertion order, with the Python dict update semantics spelled out
  (overwrite keeps the position of the key, insertion appends);
* `get_workflow_runs`' paginated fetch loop becomes a fuelled loop over a
  server modelled as a fixed run list served in pages of a fixed size.
-/

namespace GDM

/-- A workflow run, holding exactly the fields that
`get-deployment-metrics.py` reads from the runs listing and from the
per-run timing call: the run id, the `conclusion` string, the optional
`triggering_actor` login, the trigger `event`, and the optional
`run_duration_ms` of the timing payload. -/
structure WorkflowRun where
  run_id : Nat
  conclusion : String
  triggering_actor : Option String
  event : String
  run_duration_ms : Option Nat
deriving DecidableEq

/-- Source line 163: the conclusions counted as successes. -/
def workflow_success_states : List String :=
  ["success", "neutral", "cancelled", "skipped", "action_required"]

/-- Source line 169: the conclusions counted as failures. -/
def workflow_failure_states : List String :=
  ["failure", "timed_out"]

/-- Source lines 217-220: the actor of a run is the `triggering_actor`
login, or the departed-user sentinel string when that field is null. -/
def actorOf (r : WorkflowRun) : String :=
  match r.triggering_actor with
  | some login => login
  | none => "User is no longer in the org"

/-- Source line 229 with the flag check of 230: a run is dropped from the
stats when its event is `workflow_dispatch` and `--include-manual-runs`
is unset. -/
def isManualExcluded (include_manual_runs : Bool) (r : WorkflowRun) : Bool :=
  r.event == "workflow_dispatch" && !include_manual_runs

/-- Round a rational to the nearest integer, ties to the even integer:
the rounding applied by `"{0:.2f}".format` at an exact midpoint. -/
def roundHalfEven (q : ℚ) : ℤ :=
  if Int.fract q < 1 / 2 then ⌊q⌋
  else if 1 / 2 < Int.fract q then ⌊q⌋ + 1
  else if ⌊q⌋ % 2 = 0 then ⌊q⌋ else ⌊q⌋ + 1

/-- Two-digit zero-padded decimal string, for the fraction part of the
two-decimal formatting. -/
def twoDigits (n : Nat) : String :=
  if n < 10 then "0" ++ toString n else toString n

/-- Source lines 20-26, `format_number`: an integral value prints as a bare
integer, any other value with exactly two decimal places.  A Python float
`f` with `f.is_integer()` is a rational with denominator 1; the
`"{0:.2f}"` branch rounds to cents.  (The source only ever formats
non-negative rates and averages.) -/
def format_number (float_val : ℚ) : String :=
  if float_val.den = 1 then toString float_val.num
  else
    let cents := (roundHalfEven (100 * float_val)).toNat
    toString (cents / 100) ++ "." ++ twoDigits (cents % 100)

/-- The numeric value rendered by `format_number`, i.e. the value the
summary pass reads back with `float(...)` on source lines 341-346: the
argument itself when integral, otherwise the argument rounded to cents. -/
def formatValue (float_val : ℚ) : ℚ :=
  if float_val.den = 1 then float_val
  else (roundHalfEven (100 * float_val) : ℚ) / 100

/-- Rounding of a rational to the nearest binary64 floating-point value:
a 53-bit significand, round to nearest with ties to the even significand.
The exponent is unbounded — overflow and subnormal underflow cannot occur
at the magnitudes this script computes (percentages, counts, millisecond
durations), so this is the exact value of the Python float nearest to the
argument.  Non-positive arguments are left unchanged (the script only
rounds positive counts and quotients here). -/
def rnd53 (q : ℚ) : ℚ :=
  if q ≤ 0 then q
  else (roundHalfEven (q / 2 ^ (Int.log 2 q - 52)) : ℚ) * 2 ^ (Int.log 2 q - 52)

/-- The value of the Python expression `100.0 * count / total` (source
lines 290-294) computed in binary64: each int operand is converted to a
float (a rounding), the product is rounded, and the quotient is rounded.
`100.0` is exactly representable. -/
def doubleRate (count : Nat) (total : Int) : ℚ :=
  rnd53 (rnd53 (100 * rnd53 ((count : ℚ))) / rnd53 ((total : ℚ)))

/-- One page of the runs listing, as served to `get_workflow_runs`
(source lines 40-44): the server holds the fixed in-range run list `runs`
and serves `per_page` of them per page, pages starting at 1.  The
response's `total_count` is `runs.length`. -/
def pageSlice (runs : List WorkflowRun) (per_page page : Nat) : List WorkflowRun :=
  (runs.drop ((page - 1) * per_page)).take per_page

/-- The `while more_results` loop of `get_workflow_runs` (source lines
38-65), with explicit fuel standing for the unbounded iteration: fetch the
page, append it, and stop as soon as the running count of runs received is
no longer below the server-reported total. -/
def getRunsLoop (runs : List WorkflowRun) (per_page : Nat) :
    Nat → Nat → List WorkflowRun → Nat → Option (List WorkflowRun)
  | 0, _, _, _ => none
  | fuel + 1, page_to_get, acc, total_runs_returned =>
    let workflow_runs := pageSlice runs per_page page_to_get
    let acc2 := acc ++ workflow_runs
    let total2 := total_runs_returned + workflow_runs.length
    if total2 < runs.length then
      getRunsLoop runs per_page fuel (page_to_get + 1) acc2 total2
    else
      some acc2

/-- Source lines 29-67, `get_workflow_runs`: page through the runs
starting at page 1 with empty accumulator and zero received count.
`runs.length + 1` units of fuel always suffice for a positive page size. -/
def get_workflow_runs (runs : List WorkflowRun) (per_page : Nat) :
    Option (List WorkflowRun) :=
  getRunsLoop runs per_page (runs.length + 1) 1 [] 0

/-- The mutable state of the per-workflow loop body (source lines 159-274):
`total_workflow_runs`, `workflow_success_count`, `workflow_fail_count`,
`workflow_total_duration` and the `deployers` dict (an association list in
insertion order).  `total` is an `Int` because the source decrements it. -/
structure AggState where
  total : Int
  success : Nat
  fail : Nat
  duration : Nat
  deployers : List (String × Nat)
deriving DecidableEq

/-- Python `actor in deployers` (source line 225). -/
def hasKey (l : List (String × Nat)) (a : String) : Bool :=
  l.any (fun p => p.1 == a)

/-- Source lines 225-226: `if actor not in deployers: deployers[actor] = 0`.
Dict insertion appends; an existing key is left alone. -/
def initActor (l : List (String × Nat)) (a : String) : List (String × Nat) :=
  if hasKey l a then l else l ++ [(a, 0)]

/-- Python `d[a] += c` on a present key: the value at the key is increased,
the position of the entry is unchanged. -/
def addToKey (l : List (String × Nat)) (a : String) (c : Nat) :
    List (String × Nat) :=
  l.map (fun q => if q.1 == a then (q.1, q.2 + c) else q)

/-- The body of the run loop (source lines 212-274) as a state transformer:
record the actor with count 0, then either drop a manual run (decrementing
the total, source lines 229-243) or classify the conclusion, credit the
actor, and add the run's duration (0 when the timing payload has no
`run_duration_ms`, source lines 252-274). -/
def processRun (include_manual_runs : Bool) (st : AggState) (r : WorkflowRun) :
    AggState :=
  let st1 : AggState := { st with deployers := initActor st.deployers (actorOf r) }
  if isManualExcluded include_manual_runs r then
    { st1 with total := st1.total - 1 }
  else
    let st2 : AggState :=
      if r.conclusion ∈ workflow_success_states then
        { st1 with success := st1.success + 1 }
      else if r.conclusion ∈ workflow_failure_states then
        { st1 with fail := st1.fail + 1 }
      else st1
    { st2 with
      deployers := addToKey st2.deployers (actorOf r) 1,
      duration := st2.duration + r.run_duration_ms.getD 0 }

/-- The whole run loop for one workflow: `total_workflow_runs` starts at
`len(workflow_runs)` (source line 194), the counters at 0, `deployers`
empty (source lines 159-172), and each run is processed in order. -/
def aggregate (include_manual_runs : Bool) (runs : List WorkflowRun) : AggState :=
  runs.foldl (processRun include_manual_runs)
    { total := (runs.length : Int), success := 0, fail := 0, duration := 0,
      deployers := [] }

/-- The per-workflow stat record assembled on source lines 282-309:
when the total after manual-run exclusion is zero all three derived values
are zero, otherwise the rates are the formatted percentages and the
average duration is the exact quotient.  `success_rate` and `fail_rate`
hold the numeric value of the formatted string (`formatValue`), which is
what the summary pass reads back with `float(...)`.  The quotients here
are taken in exact rational arithmetic — the idealization at which the
spec states its per-workflow and summary averages; the binary64
arithmetic the script actually performs on the rates is modelled
separately by `success_rate_fp` and `fail_rate_fp`, which differ from
these exact rates by the rounding of each float operation. -/
structure WorkflowStat where
  total_runs : Int
  success_count : Nat
  fail_count : Nat
  success_rate : ℚ
  fail_rate : ℚ
  avg_duration_ms : ℚ
  actors : List (String × Nat)
deriving DecidableEq

/-- Source lines 282-309: build the `stat` record for one workflow from
the aggregated state, guarding the divisions by the zero-total test. -/
def workflowStat (include_manual_runs : Bool) (runs : List WorkflowRun) :
    WorkflowStat :=
  let st := aggregate include_manual_runs runs
  if st.total = 0 then
    { total_runs := st.total, success_count := st.success, fail_count := st.fail,
      success_rate := 0, fail_rate := 0, avg_duration_ms := 0,
      actors := st.deployers }
  else
    { total_runs := st.total, success_count := st.success, fail_count := st.fail,
      success_rate := formatValue (100 * (st.success : ℚ) / (st.total : ℚ)),
      fail_rate := formatValue (100 * (st.fail : ℚ) / (st.total : ℚ)),
      avg_duration_ms := (st.duration : ℚ) / (st.total : ℚ),
      actors := st.deployers }

/-- The numeric value of the workflow's formatted success rate as the
script computes it (source lines 290-292): the quotient
`100.0 * workflow_success_count / total_workflow_runs` evaluated in
binary64 (`doubleRate`), then formatted by `format_number`. -/
def success_rate_fp (include_manual_runs : Bool) (runs : List WorkflowRun) : ℚ :=
  formatValue (doubleRate (aggregate include_manual_runs runs).success
    (aggregate include_manual_runs runs).total)

/-- The numeric value of the workflow's formatted failure rate as the
script computes it (source lines 293-295). -/
def fail_rate_fp (include_manual_runs : Bool) (runs : List WorkflowRun) : ℚ :=
  formatValue (doubleRate (aggregate include_manual_runs runs).fail
    (aggregate include_manual_runs runs).total)

/-- Source lines 176-178: dict keys for the summary are the workflow name
with every space removed (`workflow_name.replace(" ", "")`). -/
def stripSpaces (s : String) : String :=
  String.mk (s.toList.filter (fun c => c != ' '))

/-- Source line 353: `fnmatch.fnmatch(stat_workflow, "Branch*")` — on a
case-sensitive platform the pattern `"Branch*"` matches exactly the
strings starting with `Branch`. -/
def branchGlob (s : String) : Bool :=
  "Branch".toList.isPrefixOf s.toList

/-- A workflow as the aggregation sees it: its name and the runs fetched
for it in the date range. -/
structure Workflow where
  name : String
  runs : List WorkflowRun

/-- Python `inner[k] = st` on the inner per-repo dict (source line 309):
overwrite in place when the key exists, append otherwise. -/
def setStat (inner : List (String × WorkflowStat)) (k : String)
    (st : WorkflowStat) : List (String × WorkflowStat) :=
  if inner.any (fun p => p.1 == k) then
    inner.map (fun p => if p.1 == k then (p.1, st) else p)
  else inner ++ [(k, st)]

/-- Source lines 209-210 and 309: ensure the repo's inner dict exists,
then store the stat record under the space-stripped workflow key. -/
def setRepoStat (summary : List (String × List (String × WorkflowStat)))
    (repo k : String) (st : WorkflowStat) :
    List (String × List (String × WorkflowStat)) :=
  if summary.any (fun p => p.1 == repo) then
    summary.map (fun p => if p.1 == repo then (p.1, setStat p.2 k st) else p)
  else summary ++ [(repo, setStat [] k st)]

/-- The repo/workflow scan of `__main__` (source lines 140-309), over an
input of non-archived repositories with their workflows: a workflow whose
name matches the `--deploy-workflow-pattern` glob (the predicate
`pattern`) and which had at least one run in the date range gets its stat
record stored under `(repo, stripped name)`. -/
def buildSummary (include_manual_runs : Bool) (pattern : String → Bool)
    (repos : List (String × List Workflow)) :
    List (String × List (String × WorkflowStat)) :=
  repos.foldl (fun summary rp =>
    rp.2.foldl (fun summary w =>
      if pattern w.name = true ∧ 0 < w.runs.length then
        setRepoStat summary rp.1 (stripSpaces w.name)
          (workflowStat include_manual_runs w.runs)
      else summary) summary) []

/-- The accumulators of the summary pass (source lines 331-336). -/
structure OverallState where
  workflow_count : Nat
  success_sum : ℚ
  failure_sum : ℚ
  duration_sum : ℚ
  run_count : Int
  deployers : List (String × Nat)
deriving DecidableEq

/-- Python `overall_deployers` merge of one workflow's actor dict
(source lines 360-366): add to an existing key, insert a missing one. -/
def mergeActors (overall l : List (String × Nat)) : List (String × Nat) :=
  l.foldl (fun acc p =>
    if hasKey acc p.1 then addToKey acc p.1 p.2
    else acc ++ [p]) overall

/-- One step of the summary loop (source lines 338-366): every stored
workflow contributes its rates, average duration and run count once, and
its actor counts are merged unless its (space-stripped) key matches the
`"Branch*"` glob. -/
def overallStep (os : OverallState) (p : String × WorkflowStat) : OverallState :=
  { workflow_count := os.workflow_count + 1,
    success_sum := os.success_sum + p.2.success_rate,
    failure_sum := os.failure_sum + p.2.fail_rate,
    duration_sum := os.duration_sum + p.2.avg_duration_ms,
    run_count := os.run_count + p.2.total_runs,
    deployers :=
      if branchGlob p.1 then os.deployers
      else mergeActors os.deployers p.2.actors }

/-- The stored workflow stats in iteration order: all inner entries of the
summary dict, repo by repo. -/
def allStats (summary : List (String × List (String × WorkflowStat))) :
    List (String × WorkflowStat) :=
  (summary.map (fun p => p.2)).flatten

/-- The summary fold of source lines 338-366. -/
def overall (summary : List (String × List (String × WorkflowStat))) :
    OverallState :=
  (allStats summary).foldl overallStep
    { workflow_count := 0, success_sum := 0, failure_sum := 0,
      duration_sum := 0, run_count := 0, deployers := [] }

/-- Source lines 376-379: the organization-wide average success rate,
printed only when at least one workflow was recorded. -/
def overall_average_success_rate
    (summary : List (String × List (String × WorkflowStat))) : Option String :=
  let os := overall summary
  if os.workflow_count = 0 then none
  else some (format_number (os.success_sum / (os.workflow_count : ℚ)))

/-- Source lines 381-383: the organization-wide average failure rate. -/
def overall_average_failure_rate
    (summary : List (String × List (String × WorkflowStat))) : Option String :=
  let os := overall summary
  if os.workflow_count = 0 then none
  else some (format_number (os.failure_sum / (os.workflow_count : ℚ)))

/-- Source line 384: the organization-wide average duration (a float,
formatted only at the print site). -/
def overall_average_duration_ms
    (summary : List (String × List (String × WorkflowStat))) : Option ℚ :=
  let os := overall summary
  if os.workflow_count = 0 then none
  else some (os.duration_sum / (os.workflow_count : ℚ))

/-- Modelled from the spec: the organization-wide averages are described as
the unweighted mean across workflows — each recorded workflow contributes
exactly one equally weighted term.  This definition follows the spec's
words and is compared against the summary fold above. -/
def unweightedMeanSpec (l : List ℚ) : ℚ :=
  l.sum / (l.length : ℚ)

/-- A run is classified when its conclusion falls in the success set or in
the failure set; any other conclusion is counted in neither counter. -/
def classifiedRun (r : WorkflowRun) : Prop :=
  r.conclusion ∈ workflow_success_states ∨ r.conclusion ∈ workflow_failure_states

instance (r : WorkflowRun) : Decidable (classifiedRun r) := by
  unfold classifiedRun; infer_instance

/-- What one run adds to `workflow_success_count`. -/
def succInc (include_manual_runs : Bool) (r : WorkflowRun) : Nat :=
  if isManualExcluded include_manual_runs r then 0
  else if r.conclusion ∈ workflow_success_states then 1 else 0

/-- What one run adds to `workflow_fail_count` (the `elif` of line 254:
nothing when the conclusion already matched the success set). -/
def failInc (include_manual_runs : Bool) (r : WorkflowRun) : Nat :=
  if isManualExcluded include_manual_runs r then 0
  else if r.conclusion ∈ workflow_success_states then 0
  else if r.conclusion ∈ workflow_failure_states then 1 else 0

/-- What one run adds to `workflow_total_duration`. -/
def durInc (include_manual_runs : Bool) (r : WorkflowRun) : Nat :=
  if isManualExcluded include_manual_runs r then 0
  else r.run_duration_ms.getD 0

/-- What one run adds to `total_workflow_runs` beyond the upfront length
count: excluded manual runs are decremented back out. -/
def totInc (include_manual_runs : Bool) (r : WorkflowRun) : Int :=
  if isManualExcluded include_manual_runs r then -1 else 0

/-- What one run adds to `deployers[a]`: one deploy credited to its actor
unless the run is excluded. -/
def actorInc (include_manual_runs : Bool) (a : String) (r : WorkflowRun) : Nat :=
  if isManualExcluded include_manual_runs r then 0
  else if actorOf r == a then 1 else 0

/-- The total count credited to actor `a` in an actor association list
(the sum over all entries for that key). -/
def amount (a : String) (l : List (String × Nat)) : Nat :=
  ((l.filter (fun p => p.1 == a)).map (fun p => p.2)).sum

/-- The keys of an actor association list are pairwise distinct — the dict
invariant. -/
def keysNodup (l : List (String × Nat)) : Prop :=
  (l.map Prod.fst).Nodup

/-- Sample run ending in `success`, triggered by alice from a push. -/
def runSuccess : WorkflowRun :=
  { run_id := 1, conclusion := "success", triggering_actor := some "alice",
    event := "push", run_duration_ms := some 120000 }

/-- Sample run ending in `failure`. -/
def runFailure : WorkflowRun :=
  { run_id := 2, conclusion := "failure", triggering_actor := some "bob",
    event := "push", run_duration_ms := some 60000 }

/-- Sample run with the unclassified conclusion `stale` and no timing
payload. -/
def runStale : WorkflowRun :=
  { run_id := 3, conclusion := "stale", triggering_actor := some "carol",
    event := "push", run_duration_ms := none }

/-- Sample manually dispatched run. -/
def runManual : WorkflowRun :=
  { run_id := 4, conclusion := "success", triggering_actor := some "alice",
    event := "workflow_dispatch", run_duration_ms := some 30000 }

/-- A 20000-run workflow: 1 success and 19999 failures, every run
classified.  The binary64 success rate 100.0/20000 lands just above
0.005 and formats to `0.01`, while the failure rate lands just above
99.995 and formats to `100.00`: the formatted rates sum to 100.01. -/
def overshootRuns : List WorkflowRun :=
  runSuccess :: List.replicate 19999 runFailure

/-- A push-triggered success run by alice with the given id. -/
def aliceRun (i : Nat) : WorkflowRun :=
  { run_id := i, conclusion := "success", triggering_actor := some "alice",
    event := "push", run_duration_ms := none }

/-- The deployer-tally example: alice triggers 3 runs of `Deploy Prod` and
2 runs of `Branch Deploy Staging` in one repository. -/
def demoRepos : List (String × List Workflow) :=
  [("repo",
    [{ name := "Deploy Prod", runs := [aliceRun 1, aliceRun 2, aliceRun 3] },
     { name := "Branch Deploy Staging", runs := [aliceRun 4, aliceRun 5] }])]

/-- A manually dispatched run triggered by alice. -/
def manualAliceRun : WorkflowRun :=
  { run_id := 9, conclusion := "success", triggering_actor := some "alice",
    event := "workflow_dispatch", run_duration_ms := none }

/-- One repository whose only workflow is named `Branch Deploy` and whose
only run is alice's manual dispatch. -/
def branchRepo : List (String × List Workflow) :=
  [("repo", [{ name := "Branch Deploy", runs := [manualAliceRun] }])]

/-- Two sample stat records with success rates 100 and 50. -/
def statRate100 : WorkflowStat :=
  { total_runs := 4, success_count := 4, fail_count := 0, success_rate := 100,
    fail_rate := 0, avg_duration_ms := 0, actors := [] }

/-- See `statRate100`. -/
def statRate50 : WorkflowStat :=
  { total_runs := 2, success_count := 1, fail_count := 1, success_rate := 50,
    fail_rate := 50, avg_duration_ms := 0, actors := [] }

theorem success_failure_disjoint (c : String)
    (h : c ∈ workflow_success_states) : c ∉ workflow_failure_states := by
  simp only [workflow_success_states, List.mem_cons, List.mem_singleton,
    List.not_mem_nil, or_false] at h
  rcases h with rfl | rfl | rfl | rfl | rfl <;> decide

theorem processRun_total (im : Bool) (st : AggState) (r : WorkflowRun) :
    (processRun im st r).total = st.total + totInc im r := by
  simp only [processRun, totInc]
  split_ifs <;> simp <;> omega

theorem processRun_success (im : Bool) (st : AggState) (r : WorkflowRun) :
    (processRun im st r).success = st.success + succInc im r := by
  simp only [processRun, succInc]
  split_ifs <;> simp

theorem processRun_fail (im : Bool) (st : AggState) (r : WorkflowRun) :
    (processRun im st r).fail = st.fail + failInc im r := by
  simp only [processRun, failInc]
  split_ifs <;> simp

theorem processRun_duration (im : Bool) (st : AggState) (r : WorkflowRun) :
    (processRun im st r).duration = st.duration + durInc im r := by
  simp only [processRun, durInc]
  split_ifs <;> simp

theorem foldl_total (im : Bool) (rs : List WorkflowRun) :
    ∀ st : AggState,
      (rs.foldl (processRun im) st).total = st.total + (rs.map (totInc im)).sum := by
  induction rs with
  | nil => intro st; simp
  | cons r rs ih =>
    intro st
    simp only [List.foldl_cons, List.map_cons, List.sum_cons, ih,
      processRun_total]
    ring

theorem foldl_success (im : Bool) (rs : List WorkflowRun) :
    ∀ st : AggState,
      (rs.foldl (processRun im) st).success =
        st.success + (rs.map (succInc im)).sum := by
  induction rs with
  | nil => intro st; simp
  | cons r rs ih =>
    intro st
    simp only [List.foldl_cons, List.map_cons, List.sum_cons, ih,
      processRun_success]
    omega

theorem foldl_fail (im : Bool) (rs : List WorkflowRun) :
    ∀ st : AggState,
      (rs.foldl (processRun im) st).fail =
        st.fail + (rs.map (failInc im)).sum := by
  induction rs with
  | nil => intro st; simp
  | cons r rs ih =>
    intro st
    simp only [List.foldl_cons, List.map_cons, List.sum_cons, ih, processRun_fail]
    omega

theorem foldl_duration (im : Bool) (rs : List WorkflowRun) :
    ∀ st : AggState,
      (rs.foldl (processRun im) st).duration =
        st.duration + (rs.map (durInc im)).sum := by
  induction rs with
  | nil => intro st; simp
  | cons r rs ih =>
    intro st
    simp only [List.foldl_cons, List.map_cons, List.sum_cons, ih,
      processRun_duration]
    omega

theorem aggregate_total (im : Bool) (rs : List WorkflowRun) :
    (aggregate im rs).total = (rs.length : Int) + (rs.map (totInc im)).sum := by
  simp [aggregate, foldl_total]

theorem aggregate_success (im : Bool) (rs : List WorkflowRun) :
    (aggregate im rs).success = (rs.map (succInc im)).sum := by
  simp [aggregate, foldl_success]

theorem aggregate_fail (im : Bool) (rs : List WorkflowRun) :
    (aggregate im rs).fail = (rs.map (failInc im)).sum := by
  simp [aggregate, foldl_fail]

theorem aggregate_duration (im : Bool) (rs : List WorkflowRun) :
    (aggregate im rs).duration = (rs.map (durInc im)).sum := by
  simp [aggregate, foldl_duration]

theorem amount_cons (b : String) (p : String × Nat) (t : List (String × Nat)) :
    amount b (p :: t) = (if p.1 == b then p.2 else 0) + amount b t := by
  simp only [amount, List.filter_cons]
  split_ifs <;> simp

theorem amount_append (b : String) (l₁ l₂ : List (String × Nat)) :
    amount b (l₁ ++ l₂) = amount b l₁ + amount b l₂ := by
  simp [amount, List.filter_append]

theorem hasKey_initActor (l : List (String × Nat)) (a b : String) :
    hasKey (initActor l a) b = (hasKey l b || (a == b)) := by
  unfold initActor
  split_ifs with h
  · cases hab : (a == b)
    · simp
    · have hab' : a = b := by simpa using hab
      subst hab'
      simp [h]
  · simp [hasKey]

theorem amount_initActor (l : List (String × Nat)) (a b : String) :
    amount b (initActor l a) = amount b l := by
  unfold initActor
  split_ifs with h
  · rfl
  · rw [amount_append, amount_cons]
    cases hab : (a == b) <;> simp [amount, hab]

theorem hasKey_eq_keys (l : List (String × Nat)) (b : String) :
    hasKey l b = (l.map Prod.fst).any (fun s => s == b) := by
  induction l with
  | nil => rfl
  | cons p t ih =>
    simp only [hasKey, List.map_cons, List.any_cons] at ih ⊢
    rw [ih]

theorem mem_keys_of_hasKey (l : List (String × Nat)) (a : String)
    (h : hasKey l a = true) : a ∈ l.map Prod.fst := by
  rcases List.any_eq_true.mp h with ⟨p, hp, hpa⟩
  have hpa' : p.1 = a := by simpa using hpa
  exact hpa' ▸ List.mem_map_of_mem Prod.fst hp

theorem not_hasKey_of_not_mem (l : List (String × Nat)) (a : String)
    (h : a ∉ l.map Prod.fst) : hasKey l a = false := by
  rcases hh : hasKey l a with _ | _
  · rfl
  · exact absurd (mem_keys_of_hasKey l a hh) h

theorem keysNodup_append_new (l : List (String × Nat)) (a : String) (c : Nat)
    (h : keysNodup l) (hk : hasKey l a = false) : keysNodup (l ++ [(a, c)]) := by
  have ha : a ∉ l.map Prod.fst := by
    intro hmem
    rcases List.mem_map.mp hmem with ⟨p, hp, hpa⟩
    have h2 : hasKey l a = true := by
      simp only [hasKey, List.any_eq_true]
      exact ⟨p, hp, by simp [hpa]⟩
    rw [h2] at hk
    exact Bool.noConfusion hk
  unfold keysNodup at *
  rw [List.map_append, List.nodup_append]
  refine ⟨h, List.nodup_singleton a, ?_⟩
  intro x hx hx1
  simp only [List.map_cons, List.map_nil, List.mem_singleton] at hx1
  subst hx1
  exact ha hx

theorem keysNodup_initActor (l : List (String × Nat)) (a : String)
    (h : keysNodup l) : keysNodup (initActor l a) := by
  unfold initActor
  split_ifs with hk
  · exact h
  · exact keysNodup_append_new l a 0 h (by simpa using hk)

theorem keys_addToKey (l : List (String × Nat)) (a : String) (c : Nat) :
    (addToKey l a c).map Prod.fst = l.map Prod.fst := by
  unfold addToKey
  rw [List.map_map]
  apply List.map_congr_left
  intro p _
  show (if (p.1 == a) = true then (p.1, p.2 + c) else p).1 = p.1
  by_cases h : (p.1 == a) = true
  · rw [if_pos h]
  · rw [if_neg h]

theorem hasKey_addToKey (l : List (String × Nat)) (a b : String) (c : Nat) :
    hasKey (addToKey l a c) b = hasKey l b := by
  rw [hasKey_eq_keys, hasKey_eq_keys, keys_addToKey]

theorem keysNodup_addToKey (l : List (String × Nat)) (a : String) (c : Nat)
    (h : keysNodup l) : keysNodup (addToKey l a c) := by
  unfold keysNodup at *
  rw [keys_addToKey]
  exact h

theorem addToKey_cons (p : String × Nat) (t : List (String × Nat))
    (a : String) (c : Nat) :
    addToKey (p :: t) a c =
      (if p.1 == a then (p.1, p.2 + c) else p) :: addToKey t a c := rfl

theorem addToKey_of_not_hasKey (l : List (String × Nat)) (a : String) (c : Nat)
    (h : hasKey l a = false) : addToKey l a c = l := by
  induction l with
  | nil => rfl
  | cons p t ih =>
    simp only [hasKey, List.any_cons, Bool.or_eq_false_iff] at h
    rw [addToKey_cons, if_neg (by simp [h.1]), ih (by simp [hasKey, h.2])]

theorem amount_addToKey_self (l : List (String × Nat)) (a : String) (c : Nat)
    (hnd : keysNodup l) (hk : hasKey l a = true) :
    amount a (addToKey l a c) = amount a l + c := by
  induction l with
  | nil => simp [hasKey] at hk
  | cons p t ih =>
    have hnd' : keysNodup t := by
      unfold keysNodup at hnd ⊢
      rw [List.map_cons] at hnd
      exact (List.nodup_cons.mp hnd).2
    rw [addToKey_cons]
    by_cases hpa : (p.1 == a) = true
    · have hpa' : p.1 = a := by simpa using hpa
      have hta : hasKey t a = false := by
        apply not_hasKey_of_not_mem
        intro hmem
        unfold keysNodup at hnd
        rw [List.map_cons] at hnd
        rw [← hpa'] at hmem
        exact (List.nodup_cons.mp hnd).1 hmem
      rw [if_pos hpa, addToKey_of_not_hasKey t a c hta,
        amount_cons, amount_cons]
      simp only [hpa']
      simp
      try omega
    · have hpaf : (p.1 == a) = false := by
        rcases hb : (p.1 == a) with _ | _
        · rfl
        · exact absurd hb hpa
      have hk' : hasKey t a = true := by
        simp only [hasKey, List.any_cons, hpaf, Bool.false_or] at hk
        exact hk
      rw [if_neg hpa, amount_cons, amount_cons, ih hnd' hk']
      simp only [hpaf]
      simp
      try omega

theorem amount_addToKey_ne (l : List (String × Nat)) (a b : String) (c : Nat)
    (hab : (a == b) = false) : amount b (addToKey l a c) = amount b l := by
  induction l with
  | nil => rfl
  | cons p t ih =>
    rw [addToKey_cons]
    by_cases hpa : (p.1 == a) = true
    · have hpa' : p.1 = a := by simpa using hpa
      have hpb : (p.1 == b) = false := by rw [hpa']; exact hab
      rw [if_pos hpa, amount_cons, amount_cons, ih]
      simp [hpb]
    · rw [if_neg hpa, amount_cons, amount_cons, ih]

theorem processRun_deployers_nodup (im : Bool) (st : AggState) (r : WorkflowRun)
    (h : keysNodup st.deployers) : keysNodup (processRun im st r).deployers := by
  simp only [processRun]
  split_ifs <;>
    first
      | exact keysNodup_initActor _ _ h
      | exact keysNodup_addToKey _ _ _ (keysNodup_initActor _ _ h)

theorem processRun_hasKey (im : Bool) (st : AggState) (r : WorkflowRun)
    (b : String) :
    hasKey (processRun im st r).deployers b =
      (hasKey st.deployers b || (actorOf r == b)) := by
  simp only [processRun]
  split_ifs <;>
    first
      | exact hasKey_initActor _ _ _
      | rw [hasKey_addToKey, hasKey_initActor]

theorem processRun_deployers (im : Bool) (st : AggState) (r : WorkflowRun) :
    (processRun im st r).deployers =
      if isManualExcluded im r then initActor st.deployers (actorOf r)
      else addToKey (initActor st.deployers (actorOf r)) (actorOf r) 1 := by
  simp only [processRun]
  split_ifs <;> rfl

theorem processRun_amount (im : Bool) (st : AggState) (r : WorkflowRun)
    (b : String) (h : keysNodup st.deployers) :
    amount b (processRun im st r).deployers =
      amount b st.deployers + actorInc im b r := by
  have hnd : keysNodup (initActor st.deployers (actorOf r)) :=
    keysNodup_initActor _ _ h
  have hhk : hasKey (initActor st.deployers (actorOf r)) (actorOf r) = true := by
    rw [hasKey_initActor]
    simp
  rw [processRun_deployers]
  by_cases h1 : isManualExcluded im r = true
  · rw [if_pos h1, amount_initActor]
    simp [actorInc, h1]
  · have h1f : isManualExcluded im r = false := by
      rcases hb : isManualExcluded im r with _ | _
      · rfl
      · exact absurd hb h1
    rw [if_neg h1]
    by_cases hab : (actorOf r == b) = true
    · have hab' : actorOf r = b := by simpa using hab
      subst hab'
      rw [amount_addToKey_self _ _ _ hnd hhk, amount_initActor]
      simp [actorInc, h1f]
    · have habf : (actorOf r == b) = false := by
        rcases hb : (actorOf r == b) with _ | _
        · rfl
        · exact absurd hb hab
      rw [amount_addToKey_ne _ _ _ _ habf, amount_initActor]
      simp [actorInc, h1f, habf]

theorem foldl_deployers_nodup (im : Bool) (rs : List WorkflowRun) :
    ∀ st : AggState, keysNodup st.deployers →
      keysNodup ((rs.foldl (processRun im) st).deployers) := by
  induction rs with
  | nil => intro st h; exact h
  | cons r rs ih =>
    intro st h
    exact ih _ (processRun_deployers_nodup im st r h)

theorem foldl_hasKey (im : Bool) (rs : List WorkflowRun) (b : String) :
    ∀ st : AggState,
      hasKey ((rs.foldl (processRun im) st).deployers) b =
        (hasKey st.deployers b || rs.any (fun r => actorOf r == b)) := by
  induction rs with
  | nil => intro st; simp
  | cons r rs ih =>
    intro st
    simp only [List.foldl_cons, List.any_cons, ih, processRun_hasKey,
      Bool.or_assoc]

theorem foldl_amount (im : Bool) (rs : List WorkflowRun) (b : String) :
    ∀ st : AggState, keysNodup st.deployers →
      amount b ((rs.foldl (processRun im) st).deployers) =
        amount b st.deployers + (rs.map (actorInc im b)).sum := by
  induction rs with
  | nil => intro st _; simp
  | cons r rs ih =>
    intro st h
    simp only [List.foldl_cons, List.map_cons, List.sum_cons]
    rw [ih _ (processRun_deployers_nodup im st r h), processRun_amount im st r b h]
    omega

theorem aggregate_deployers_nodup (im : Bool) (rs : List WorkflowRun) :
    keysNodup (aggregate im rs).deployers := by
  unfold aggregate
  apply foldl_deployers_nodup
  simp [keysNodup]

theorem aggregate_hasKey (im : Bool) (rs : List WorkflowRun) (b : String) :
    hasKey (aggregate im rs).deployers b = rs.any (fun r => actorOf r == b) := by
  unfold aggregate
  rw [foldl_hasKey]
  simp [hasKey]

theorem aggregate_amount (im : Bool) (rs : List WorkflowRun) (b : String) :
    amount b (aggregate im rs).deployers = (rs.map (actorInc im b)).sum := by
  unfold aggregate
  rw [foldl_amount im rs b _ (by simp [keysNodup])]
  simp [amount]

theorem mem_of_hasKey_amount_zero (l : List (String × Nat)) (a : String)
    (hnd : keysNodup l) (hk : hasKey l a = true) (ha : amount a l = 0) :
    (a, 0) ∈ l := by
  induction l with
  | nil => simp [hasKey] at hk
  | cons p t ih =>
    have hnd' : keysNodup t := by
      unfold keysNodup at hnd ⊢
      rw [List.map_cons] at hnd
      exact (List.nodup_cons.mp hnd).2
    rw [amount_cons] at ha
    by_cases hpa : (p.1 == a) = true
    · have hpa' : p.1 = a := by simpa using hpa
      rw [if_pos hpa] at ha
      have hp2 : p.2 = 0 := by omega
      have : p = (a, 0) := by
        rcases p with ⟨p1, p2⟩
        simp only at hpa' hp2
        rw [hpa', hp2]
      rw [this]
      exact List.mem_cons_self _ _
    · have hpaf : (p.1 == a) = false := by
        rcases hb : (p.1 == a) with _ | _
        · rfl
        · exact absurd hb hpa
      rw [if_neg hpa] at ha
      have hk' : hasKey t a = true := by
        simp only [hasKey, List.any_cons, hpaf, Bool.false_or] at hk
        exact hk
      exact List.mem_cons_of_mem _ (ih hnd' hk' (by omega))

theorem mergeActors_cons (acc : List (String × Nat)) (p : String × Nat)
    (t : List (String × Nat)) :
    mergeActors acc (p :: t) =
      mergeActors
        (if hasKey acc p.1 then addToKey acc p.1 p.2 else acc ++ [p]) t := rfl

theorem keysNodup_mergeStep (acc : List (String × Nat)) (p : String × Nat)
    (h : keysNodup acc) :
    keysNodup (if hasKey acc p.1 then addToKey acc p.1 p.2 else acc ++ [p]) := by
  split_ifs with hk
  · exact keysNodup_addToKey _ _ _ h
  · rcases p with ⟨a, c⟩
    exact keysNodup_append_new acc a c h (by simpa using hk)

theorem keysNodup_mergeActors (l : List (String × Nat)) :
    ∀ acc : List (String × Nat), keysNodup acc →
      keysNodup (mergeActors acc l) := by
  induction l with
  | nil => intro acc h; exact h
  | cons p t ih =>
    intro acc h
    rw [mergeActors_cons]
    exact ih _ (keysNodup_mergeStep acc p h)

theorem hasKey_mergeStep (acc : List (String × Nat)) (p : String × Nat)
    (b : String) :
    hasKey (if hasKey acc p.1 then addToKey acc p.1 p.2 else acc ++ [p]) b =
      (hasKey acc b || (p.1 == b)) := by
  split_ifs with hk
  · rw [hasKey_addToKey]
    by_cases hpb : (p.1 == b) = true
    · have : p.1 = b := by simpa using hpb
      rw [hpb, ← this, hk]
      simp
    · have hpbf : (p.1 == b) = false := by
        rcases hb : (p.1 == b) with _ | _
        · rfl
        · exact absurd hb hpb
      rw [hpbf]
      simp
  · simp [hasKey]

theorem hasKey_mergeActors (l : List (String × Nat)) (b : String) :
    ∀ acc : List (String × Nat),
      hasKey (mergeActors acc l) b =
        (hasKey acc b || l.any (fun p => p.1 == b)) := by
  induction l with
  | nil => intro acc; simp [mergeActors]
  | cons p t ih =>
    intro acc
    rw [mergeActors_cons, ih, hasKey_mergeStep, List.any_cons, Bool.or_assoc]

theorem amount_mergeStep (acc : List (String × Nat)) (p : String × Nat)
    (b : String) (h : keysNodup acc) :
    amount b (if hasKey acc p.1 then addToKey acc p.1 p.2 else acc ++ [p]) =
      amount b acc + (if p.1 == b then p.2 else 0) := by
  by_cases hk : hasKey acc p.1 = true
  · rw [if_pos hk]
    by_cases hpb : (p.1 == b) = true
    · have hpb' : p.1 = b := by simpa using hpb
      rw [hpb'] at hk
      rw [if_pos hpb, hpb', amount_addToKey_self _ _ _ h hk]
    · have hpbf : (p.1 == b) = false := by
        rcases hb : (p.1 == b) with _ | _
        · rfl
        · exact absurd hb hpb
      rw [if_neg hpb, amount_addToKey_ne _ _ _ _ hpbf]
      omega
  · rw [if_neg hk, amount_append, amount_cons]
    simp [amount]

theorem amount_mergeActors (l : List (String × Nat)) (b : String) :
    ∀ acc : List (String × Nat), keysNodup acc →
      amount b (mergeActors acc l) = amount b acc + amount b l := by
  induction l with
  | nil => intro acc _; simp [mergeActors, amount]
  | cons p t ih =>
    intro acc h
    rw [mergeActors_cons, ih _ (keysNodup_mergeStep acc p h),
      amount_mergeStep acc p b h, amount_cons]
    omega

theorem aggregate_total_countP (im : Bool) (rs : List WorkflowRun) :
    (aggregate im rs).total =
      (rs.countP (fun r => !isManualExcluded im r) : Int) := by
  rw [aggregate_total]
  induction rs with
  | nil => simp
  | cons r rs ih =>
    simp only [List.map_cons, List.sum_cons, List.length_cons, List.countP_cons,
      totInc] at *
    split_ifs with h <;> simp [h] at * <;> omega

theorem roundHalfEven_of_fract_lt (q : ℚ) (h : Int.fract q < 1 / 2) :
    roundHalfEven q = ⌊q⌋ := by
  unfold roundHalfEven
  rw [if_pos h]

theorem roundHalfEven_of_lt_fract (q : ℚ) (h : 1 / 2 < Int.fract q) :
    roundHalfEven q = ⌊q⌋ + 1 := by
  unfold roundHalfEven
  rw [if_neg (by linarith), if_pos h]

theorem roundHalfEven_intCast (n : ℤ) : roundHalfEven (n : ℚ) = n := by
  have h : Int.fract ((n : ℚ)) = 0 := Int.fract_intCast n
  rw [roundHalfEven_of_fract_lt _ (by rw [h]; norm_num), Int.floor_intCast]

theorem roundHalfEven_le (q : ℚ) : (roundHalfEven q : ℚ) ≤ q + 1 / 2 := by
  have h1 : Int.fract q = q - ⌊q⌋ := rfl
  have h0 := Int.fract_nonneg q
  have hfl := Int.floor_le q
  unfold roundHalfEven
  split_ifs with a b c <;> push_cast <;> rw [h1] at * <;> linarith

theorem roundHalfEven_ge (q : ℚ) : q - 1 / 2 ≤ (roundHalfEven q : ℚ) := by
  have h1 : Int.fract q = q - ⌊q⌋ := rfl
  have h2 := Int.fract_lt_one q
  unfold roundHalfEven
  split_ifs with a b c <;> push_cast <;> rw [h1] at * <;> linarith

theorem log_eq_of_bounds (q : ℚ) (L : ℤ) (hq : 0 < q) (h1 : (2:ℚ) ^ L ≤ q)
    (h2 : q < 2 ^ (L + 1)) : Int.log 2 q = L := by
  have ha : L ≤ Int.log 2 q := (Int.zpow_le_iff_le_log (by norm_num) hq).mp h1
  have hb : Int.log 2 q < L + 1 := (Int.lt_zpow_iff_log_lt (by norm_num) hq).mp h2
  omega

theorem rnd53_eval (q : ℚ) (L : ℤ) (hq : 0 < q) (h1 : (2:ℚ) ^ L ≤ q)
    (h2 : q < 2 ^ (L + 1)) :
    rnd53 q = (roundHalfEven (q / 2 ^ (L - 52)) : ℚ) * 2 ^ (L - 52) := by
  unfold rnd53
  rw [if_neg (not_le.mpr hq), log_eq_of_bounds q L hq h1 h2]

theorem rnd53_abs_err (q : ℚ) (hq : 0 < q) : |rnd53 q - q| ≤ q / 2 ^ 53 := by
  unfold rnd53
  rw [if_neg (not_le.mpr hq)]
  have hE : (0:ℚ) < 2 ^ (Int.log 2 q - 52) := by positivity
  have hstep : (roundHalfEven (q / 2 ^ (Int.log 2 q - 52)) : ℚ) *
      2 ^ (Int.log 2 q - 52) - q =
      ((roundHalfEven (q / 2 ^ (Int.log 2 q - 52)) : ℚ) -
        q / 2 ^ (Int.log 2 q - 52)) * 2 ^ (Int.log 2 q - 52) := by
    rw [sub_mul, div_mul_cancel₀ _ hE.ne']
  rw [hstep, abs_mul, abs_of_pos hE]
  have hle := roundHalfEven_le (q / 2 ^ (Int.log 2 q - 52))
  have hge := roundHalfEven_ge (q / 2 ^ (Int.log 2 q - 52))
  have habs : |(roundHalfEven (q / 2 ^ (Int.log 2 q - 52)) : ℚ) -
      q / 2 ^ (Int.log 2 q - 52)| ≤ 1 / 2 := by
    rw [abs_sub_le_iff]
    constructor <;> linarith
  have hzl : (2:ℚ) ^ Int.log 2 q ≤ q := Int.zpow_log_le_self (by norm_num) hq
  calc |(roundHalfEven (q / 2 ^ (Int.log 2 q - 52)) : ℚ) -
        q / 2 ^ (Int.log 2 q - 52)| * 2 ^ (Int.log 2 q - 52) ≤
      (1 / 2) * 2 ^ (Int.log 2 q - 52) := by
        apply mul_le_mul_of_nonneg_right habs hE.le
    _ ≤ q / 2 ^ 53 := by
        rw [le_div_iff (by norm_num : (0:ℚ) < 2 ^ 53)]
        calc (1:ℚ) / 2 * 2 ^ (Int.log 2 q - 52) * 2 ^ 53 =
            2 ^ Int.log 2 q := by
              have hn : ((2:ℚ) ^ (53:ℕ)) = 2 ^ (53:ℤ) := by norm_num
              rw [hn, mul_assoc, ← zpow_add₀ (by norm_num : (2:ℚ) ≠ 0)]
              have he : Int.log 2 q - 52 + 53 = Int.log 2 q + 1 := by ring
              rw [he, zpow_add_one₀ (by norm_num : (2:ℚ) ≠ 0)]
              ring
          _ ≤ q := hzl

theorem rnd53_upper (q : ℚ) (hq : 0 < q) : rnd53 q ≤ q * (1 + 1 / 2 ^ 53) := by
  have h := rnd53_abs_err q hq
  rw [abs_sub_le_iff] at h
  have h1 := h.1
  nlinarith [h1]

theorem rnd53_lower (q : ℚ) (hq : 0 < q) : q * (1 - 1 / 2 ^ 53) ≤ rnd53 q := by
  have h := rnd53_abs_err q hq
  rw [abs_sub_le_iff] at h
  have h2 := h.2
  nlinarith [h2]

theorem rnd53_pos (q : ℚ) (hq : 0 < q) : 0 < rnd53 q := by
  have h := rnd53_lower q hq
  nlinarith [h]

theorem rnd53_int (n L : ℤ) (h0 : 0 < n) (hL : L ≤ 52)
    (h1 : (2:ℚ) ^ L ≤ (n : ℚ)) (h2 : ((n : ℚ)) < 2 ^ (L + 1)) :
    rnd53 ((n : ℚ)) = (n : ℚ) := by
  rw [rnd53_eval ((n:ℚ)) L (by exact_mod_cast h0) h1 h2]
  have hE : (0:ℚ) < 2 ^ (L - 52) := by positivity
  have hm : ((n:ℚ)) / 2 ^ (L - 52) = ((n * 2 ^ (52 - L).toNat : ℤ) : ℚ) := by
    push_cast
    rw [div_eq_mul_inv, ← zpow_neg, ← zpow_natCast (2:ℚ) (52 - L).toNat,
      Int.toNat_of_nonneg (by omega : (0:ℤ) ≤ 52 - L)]
    congr 1
    ring_nf
  rw [hm, roundHalfEven_intCast, ← hm, div_mul_cancel₀ _ hE.ne']

theorem formatValue_eq (q : ℚ) :
    formatValue q = (roundHalfEven (100 * q) : ℚ) / 100 := by
  unfold formatValue
  split_ifs with h
  · have hq : q = (q.num : ℚ) := by
      conv_lhs => rw [← Rat.num_div_den q]
      rw [h]
      simp
    rw [hq, show (100 : ℚ) * (q.num : ℚ) = ((100 * q.num : ℤ) : ℚ) by push_cast; ring,
      roundHalfEven_intCast]
    push_cast
    ring
  · rfl

theorem doubleRate_le (c : Nat) (t : Int) (ht : 0 < t) :
    doubleRate c t ≤ (100 * (c : ℚ) / (t : ℚ)) * (1 + 1 / 2 ^ 49) := by
  have htq : (0:ℚ) < (t:ℚ) := by exact_mod_cast ht
  by_cases hc : c = 0
  · subst hc
    have hz : rnd53 (0:ℚ) = 0 := by norm_num [rnd53]
    unfold doubleRate
    rw [show ((0:ℕ):ℚ) = (0:ℚ) by norm_num, hz,
      show (100 : ℚ) * 0 = 0 by ring, hz, zero_div, hz]
    norm_num
  · have hcq : (0:ℚ) < (c:ℚ) := by exact_mod_cast Nat.pos_of_ne_zero hc
    have hA_up : rnd53 ((c:ℚ)) ≤ (c:ℚ) * (1 + 1/2^53) := rnd53_upper _ hcq
    have hA_pos : 0 < rnd53 ((c:ℚ)) := rnd53_pos _ hcq
    have hB_arg_pos : (0:ℚ) < 100 * rnd53 ((c:ℚ)) := by linarith
    have hB_up : rnd53 (100 * rnd53 ((c:ℚ))) ≤
        (100 * rnd53 ((c:ℚ))) * (1 + 1/2^53) := rnd53_upper _ hB_arg_pos
    have hB_pos : 0 < rnd53 (100 * rnd53 ((c:ℚ))) := rnd53_pos _ hB_arg_pos
    have hT_low : (t:ℚ) * (1 - 1/2^53) ≤ rnd53 ((t:ℚ)) := rnd53_lower _ htq
    have hT_pos : 0 < rnd53 ((t:ℚ)) := rnd53_pos _ htq
    have hQ_pos : 0 < rnd53 (100 * rnd53 ((c:ℚ))) / rnd53 ((t:ℚ)) :=
      div_pos hB_pos hT_pos
    have hR_up : rnd53 (rnd53 (100 * rnd53 ((c:ℚ))) / rnd53 ((t:ℚ))) ≤
        (rnd53 (100 * rnd53 ((c:ℚ))) / rnd53 ((t:ℚ))) * (1 + 1/2^53) :=
      rnd53_upper _ hQ_pos
    have hquot : rnd53 (100 * rnd53 ((c:ℚ))) / rnd53 ((t:ℚ)) ≤
        (100 * (c:ℚ) * (1 + 1/2^53)^2) / ((t:ℚ) * (1 - 1/2^53)) := by
      apply div_le_div (by positivity) ?_ (mul_pos htq (by norm_num)) hT_low
      calc rnd53 (100 * rnd53 ((c:ℚ))) ≤ (100 * rnd53 ((c:ℚ))) * (1 + 1/2^53) :=
            hB_up
        _ ≤ 100 * ((c:ℚ) * (1 + 1/2^53)) * (1 + 1/2^53) := by nlinarith [hA_up]
        _ = 100 * (c:ℚ) * (1 + 1/2^53)^2 := by ring
    unfold doubleRate
    calc rnd53 (rnd53 (100 * rnd53 ((c:ℚ))) / rnd53 ((t:ℚ))) ≤
        (rnd53 (100 * rnd53 ((c:ℚ))) / rnd53 ((t:ℚ))) * (1 + 1/2^53) := hR_up
      _ ≤ ((100 * (c:ℚ) * (1 + 1/2^53)^2) / ((t:ℚ) * (1 - 1/2^53))) *
            (1 + 1/2^53) := by
          apply mul_le_mul_of_nonneg_right hquot (by norm_num)
      _ ≤ (100 * (c:ℚ) / (t:ℚ)) * (1 + 1/2^49) := by
          rw [div_mul_eq_mul_div, div_le_iff (mul_pos htq (by norm_num))]
          rw [show (100 * (c:ℚ) / (t:ℚ)) * (1 + 1/2^49) * ((t:ℚ) * (1 - 1/2^53)) =
              (100 * (c:ℚ)) * ((1 + 1/2^49) * (1 - 1/2^53)) * ((t:ℚ) / (t:ℚ)) by
                ring]
          rw [div_self htq.ne']
          have hscalar : ((1:ℚ) + 1/2^53)^2 * (1 + 1/2^53) ≤
              (1 + 1/2^49) * (1 - 1/2^53) := by norm_num
          nlinarith [hscalar, hcq.le]

theorem rates_fp_key (s f : Nat) (t : Int) (ht : 0 < t)
    (hsf : (s : Int) + (f : Int) ≤ t) :
    formatValue (doubleRate s t) + formatValue (doubleRate f t) ≤ 100 + 1 / 100 := by
  have htq : (0:ℚ) < (t:ℚ) := by exact_mod_cast ht
  have hds := doubleRate_le s t ht
  have hdf := doubleRate_le f t ht
  have hfrac : 100 * (s:ℚ) / (t:ℚ) + 100 * (f:ℚ) / (t:ℚ) ≤ 100 := by
    rw [div_add_div_same, div_le_iff htq]
    have hq : (s:ℚ) + (f:ℚ) ≤ (t:ℚ) := by exact_mod_cast hsf
    nlinarith
  have hs0 : (0:ℚ) ≤ 100 * (s:ℚ) / (t:ℚ) := by positivity
  have hf0 : (0:ℚ) ≤ 100 * (f:ℚ) / (t:ℚ) := by positivity
  rw [formatValue_eq, formatValue_eq]
  have h1 := roundHalfEven_le (100 * doubleRate s t)
  have h2 := roundHalfEven_le (100 * doubleRate f t)
  have hKq : ((roundHalfEven (100 * doubleRate s t) +
      roundHalfEven (100 * doubleRate f t) : ℤ) : ℚ) < 10002 := by
    push_cast
    linarith [h1, h2, hds, hdf, hfrac, hs0, hf0]
  have hK : roundHalfEven (100 * doubleRate s t) +
      roundHalfEven (100 * doubleRate f t) ≤ 10001 := by
    have hz : (roundHalfEven (100 * doubleRate s t) +
        roundHalfEven (100 * doubleRate f t) : ℤ) < 10002 := by exact_mod_cast hKq
    omega
  have hform : ((roundHalfEven (100 * doubleRate s t) : ℚ)) / 100 +
      ((roundHalfEven (100 * doubleRate f t) : ℚ)) / 100 =
      ((roundHalfEven (100 * doubleRate s t) +
        roundHalfEven (100 * doubleRate f t) : ℤ) : ℚ) / 100 := by
    push_cast
    ring
  rw [hform]
  have hcast : ((roundHalfEven (100 * doubleRate s t) +
      roundHalfEven (100 * doubleRate f t) : ℤ) : ℚ) ≤ 10001 := by exact_mod_cast hK
  linarith

theorem rnd53_one_over_200 : rnd53 (1 / 200 : ℚ) = 5764607523034235 / 2 ^ 60 := by
  rw [rnd53_eval (1/200) (-8) (by norm_num) (by norm_num) (by norm_num)]
  have harg : (1/200 : ℚ) / 2 ^ ((-8:ℤ) - 52) = 5764607523034234 + 22/25 := by
    rw [show ((-8:ℤ) - 52) = -(60:ℤ) by ring, zpow_neg,
      show ((2:ℚ) ^ (60:ℤ)) = 2 ^ (60:ℕ) by norm_num]
    norm_num [div_eq_mul_inv, inv_inv]
  rw [harg, roundHalfEven_of_lt_fract _ (by norm_num [Int.fract])]
  have hfl : ⌊(5764607523034234 + 22/25 : ℚ)⌋ = 5764607523034234 := by
    norm_num [Int.floor_eq_iff]
  rw [hfl]
  rw [show ((-8:ℤ) - 52) = -(60:ℤ) by ring, zpow_neg,
    show ((2:ℚ) ^ (60:ℤ)) = 2 ^ (60:ℕ) by norm_num]
  norm_num

theorem rnd53_19999_over_200 :
    rnd53 (19999 / 200 : ℚ) = 7036522574045512 / 2 ^ 46 := by
  rw [rnd53_eval (19999/200) 6 (by norm_num) (by norm_num) (by norm_num)]
  have harg : (19999/200 : ℚ) / 2 ^ ((6:ℤ) - 52) = 7036522574045511 + 17/25 := by
    rw [show ((6:ℤ) - 52) = -(46:ℤ) by ring, zpow_neg,
      show ((2:ℚ) ^ (46:ℤ)) = 2 ^ (46:ℕ) by norm_num]
    norm_num [div_eq_mul_inv, inv_inv]
  rw [harg, roundHalfEven_of_lt_fract _ (by norm_num [Int.fract])]
  have hfl : ⌊(7036522574045511 + 17/25 : ℚ)⌋ = 7036522574045511 := by
    norm_num [Int.floor_eq_iff]
  rw [hfl]
  rw [show ((6:ℤ) - 52) = -(46:ℤ) by ring, zpow_neg,
    show ((2:ℚ) ^ (46:ℤ)) = 2 ^ (46:ℕ) by norm_num]
  norm_num

theorem formatValue_success_overshoot :
    formatValue (5764607523034235 / 2 ^ 60 : ℚ) = 1 / 100 := by
  rw [formatValue_eq, roundHalfEven_of_lt_fract _ (by norm_num [Int.fract])]
  have hfl : ⌊(100 * (5764607523034235 / 2 ^ 60) : ℚ)⌋ = 0 := by
    norm_num [Int.floor_eq_iff]
  rw [hfl]
  norm_num

theorem formatValue_failure_overshoot :
    formatValue (7036522574045512 / 2 ^ 46 : ℚ) = 100 := by
  rw [formatValue_eq, roundHalfEven_of_lt_fract _ (by norm_num [Int.fract])]
  have hfl : ⌊(100 * (7036522574045512 / 2 ^ 46) : ℚ)⌋ = 9999 := by
    norm_num [Int.floor_eq_iff]
  rw [hfl]
  norm_num

theorem doubleRate_one_20000 : doubleRate 1 20000 = 5764607523034235 / 2 ^ 60 := by
  unfold doubleRate
  rw [show ((1:ℕ):ℚ) = ((1:ℤ):ℚ) by norm_num,
    rnd53_int 1 0 (by norm_num) (by norm_num) (by norm_num) (by norm_num),
    show (100:ℚ) * ((1:ℤ):ℚ) = ((100:ℤ):ℚ) by push_cast; ring,
    rnd53_int 100 6 (by norm_num) (by norm_num) (by norm_num) (by norm_num),
    show (((20000:ℤ)):ℚ) = ((20000:ℤ):ℚ) from rfl,
    rnd53_int 20000 14 (by norm_num) (by norm_num) (by norm_num) (by norm_num),
    show ((100:ℤ):ℚ) / ((20000:ℤ):ℚ) = (1/200 : ℚ) by norm_num]
  exact rnd53_one_over_200

theorem doubleRate_19999_20000 :
    doubleRate 19999 20000 = 7036522574045512 / 2 ^ 46 := by
  unfold doubleRate
  rw [show ((19999:ℕ):ℚ) = ((19999:ℤ):ℚ) by norm_num,
    rnd53_int 19999 14 (by norm_num) (by norm_num) (by norm_num) (by norm_num),
    show (100:ℚ) * ((19999:ℤ):ℚ) = ((1999900:ℤ):ℚ) by push_cast; ring,
    rnd53_int 1999900 20 (by norm_num) (by norm_num) (by norm_num) (by norm_num),
    rnd53_int 20000 14 (by norm_num) (by norm_num) (by norm_num) (by norm_num),
    show ((1999900:ℤ):ℚ) / ((20000:ℤ):ℚ) = (19999/200 : ℚ) by norm_num]
  exact rnd53_19999_over_200

theorem workflowStat_actors (im : Bool) (rs : List WorkflowRun) :
    (workflowStat im rs).actors = (aggregate im rs).deployers := by
  by_cases h : (aggregate im rs).total = 0 <;> simp [workflowStat, h]

theorem branchGlob_stripSpaces (s : String) (h : branchGlob s = true) :
    branchGlob (stripSpaces s) = true := by
  unfold branchGlob at h ⊢
  rw [List.isPrefixOf_iff_prefix] at h ⊢
  obtain ⟨t, ht⟩ := h
  have hlist : (stripSpaces s).toList = s.toList.filter (fun c => c != ' ') := rfl
  rw [hlist, ← ht, List.filter_append]
  have hBr : "Branch".toList.filter (fun c => c != ' ') = "Branch".toList := by
    decide
  rw [hBr]
  exact List.prefix_append _ _

theorem overallStep_deployers (os : OverallState) (p : String × WorkflowStat) :
    (overallStep os p).deployers =
      if branchGlob p.1 then os.deployers
      else mergeActors os.deployers p.2.actors := rfl

theorem overall_foldl_count (l : List (String × WorkflowStat)) :
    ∀ os : OverallState,
      (l.foldl overallStep os).workflow_count = os.workflow_count + l.length := by
  induction l with
  | nil => intro os; simp
  | cons p t ih =>
    intro os
    simp only [List.foldl_cons, List.length_cons, ih, overallStep]
    omega

theorem overall_foldl_success (l : List (String × WorkflowStat)) :
    ∀ os : OverallState,
      (l.foldl overallStep os).success_sum =
        os.success_sum + (l.map (fun p => p.2.success_rate)).sum := by
  induction l with
  | nil => intro os; simp
  | cons p t ih =>
    intro os
    simp only [List.foldl_cons, List.map_cons, List.sum_cons, ih, overallStep]
    ring

theorem overall_foldl_failure (l : List (String × WorkflowStat)) :
    ∀ os : OverallState,
      (l.foldl overallStep os).failure_sum =
        os.failure_sum + (l.map (fun p => p.2.fail_rate)).sum := by
  induction l with
  | nil => intro os; simp
  | cons p t ih =>
    intro os
    simp only [List.foldl_cons, List.map_cons, List.sum_cons, ih, overallStep]
    ring

theorem overall_foldl_duration (l : List (String × WorkflowStat)) :
    ∀ os : OverallState,
      (l.foldl overallStep os).duration_sum =
        os.duration_sum + (l.map (fun p => p.2.avg_duration_ms)).sum := by
  induction l with
  | nil => intro os; simp
  | cons p t ih =>
    intro os
    simp only [List.foldl_cons, List.map_cons, List.sum_cons, ih, overallStep]
    ring

theorem overall_foldl_deployers_nodup (l : List (String × WorkflowStat)) :
    ∀ os : OverallState, keysNodup os.deployers →
      keysNodup ((l.foldl overallStep os).deployers) := by
  induction l with
  | nil => intro os h; exact h
  | cons p t ih =>
    intro os h
    refine ih _ ?_
    rw [overallStep_deployers]
    split_ifs
    · exact h
    · exact keysNodup_mergeActors _ _ h

theorem overall_foldl_amount (l : List (String × WorkflowStat)) (b : String) :
    ∀ os : OverallState, keysNodup os.deployers →
      amount b ((l.foldl overallStep os).deployers) =
        amount b os.deployers +
          (l.map (fun p =>
            if branchGlob p.1 = true then 0 else amount b p.2.actors)).sum := by
  induction l with
  | nil => intro os _; simp
  | cons p t ih =>
    intro os h
    simp only [List.foldl_cons, List.map_cons, List.sum_cons]
    have hstep : keysNodup ((overallStep os p).deployers) := by
      rw [overallStep_deployers]
      split_ifs
      · exact h
      · exact keysNodup_mergeActors _ _ h
    rw [ih _ hstep, overallStep_deployers]
    split_ifs with hbr
    · omega
    · rw [amount_mergeActors _ _ _ h]
      omega

theorem overall_foldl_hasKey (l : List (String × WorkflowStat)) (b : String) :
    ∀ os : OverallState,
      hasKey ((l.foldl overallStep os).deployers) b =
        (hasKey os.deployers b ||
          l.any (fun p => !branchGlob p.1 && hasKey p.2.actors b)) := by
  induction l with
  | nil => intro os; simp
  | cons p t ih =>
    intro os
    simp only [List.foldl_cons, List.any_cons]
    rw [ih, overallStep_deployers]
    split_ifs with hbr
    · simp [hbr]
    · rw [hasKey_mergeActors]
      have hbrf : branchGlob p.1 = false := by
        rcases hb : branchGlob p.1 with _ | _
        · rfl
        · exact absurd hb hbr
      rw [hbrf]
      simp only [Bool.not_false, Bool.true_and, hasKey]
      rw [Bool.or_assoc]

theorem buildSummary_single (im : Bool) (pat : String → Bool) (repo : String)
    (w : Workflow) (h1 : pat w.name = true) (h2 : 0 < w.runs.length) :
    buildSummary im pat [(repo, [w])] =
      [(repo, [(stripSpaces w.name, workflowStat im w.runs)])] := by
  simp [buildSummary, setRepoStat, setStat, h1, h2]

theorem getRunsLoop_spec (runs : List WorkflowRun) (per_page : Nat)
    (hp : 0 < per_page) :
    ∀ fuel k d : Nat, d = k * per_page → d ≤ runs.length →
      runs.length < d + fuel →
      getRunsLoop runs per_page fuel (k + 1) (runs.take d) d = some runs := by
  intro fuel
  induction fuel with
  | zero =>
    intro k d _ hdle hlt
    omega
  | succ fuel ih =>
    intro k d hd hdle hlt
    have hslice : pageSlice runs per_page (k + 1) = (runs.drop d).take per_page := by
      unfold pageSlice
      rw [show k + 1 - 1 = k from rfl, ← hd]
    have hm1 : ((runs.drop d).take per_page).length ≤ per_page := by
      simp only [List.length_take, List.length_drop]
      exact Nat.min_le_left _ _
    have hm2 : ((runs.drop d).take per_page).length = per_page ∨
        ((runs.drop d).take per_page).length = runs.length - d := by
      simp only [List.length_take, List.length_drop]
      exact min_choice _ _
    simp only [getRunsLoop, hslice]
    by_cases hc : d + ((runs.drop d).take per_page).length < runs.length
    · rw [if_pos hc]
      have hmp : ((runs.drop d).take per_page).length = per_page := by
        rcases hm2 with h | h
        · exact h
        · omega
      rw [hmp, ← List.take_add]
      exact ih (k + 1) (d + per_page) (by rw [Nat.succ_mul, hd]) (by omega)
        (by omega)
    · rw [if_neg hc]
      have hlast : runs.length ≤ d + per_page := by
        rcases hm2 with h | h <;> omega
      rw [← List.take_add, List.take_of_length_le hlast]

theorem succ_fail_le_countP (im : Bool) (rs : List WorkflowRun) :
    (rs.map (succInc im)).sum + (rs.map (failInc im)).sum ≤
      rs.countP (fun r => !isManualExcluded im r) := by
  induction rs with
  | nil => simp
  | cons r rs ih =>
    simp only [List.map_cons, List.sum_cons, List.countP_cons]
    have hr : succInc im r + failInc im r ≤
        (if (!isManualExcluded im r) = true then 1 else 0) := by
      unfold succInc failInc
      by_cases hx : isManualExcluded im r = true
      · simp [hx]
      · have hxf : isManualExcluded im r = false := by
          rcases hb : isManualExcluded im r with _ | _
          · rfl
          · exact absurd hb hx
        simp only [hxf, Bool.not_false, if_true, Bool.false_eq_true, if_false]
        split_ifs <;> omega
    omega

/-- C7: `get_workflow_runs` pages through the runs listing sequentially
starting at page 1, concatenating each page's result set, and terminates
returning the full ordered run sequence once the running count of runs
received equals the server-reported total, whatever the (positive) page
size of the API. -/
theorem pagination_collects_all (runs : List WorkflowRun) (per_page : Nat)
    (hp : 0 < per_page) :
    get_workflow_runs runs per_page = some runs := by
  unfold get_workflow_runs
  have h := getRunsLoop_spec runs per_page hp (runs.length + 1) 0 0 (by simp)
    (by simp) (by omega)
  simpa using h

/-- Witness for C7 at a three-run list served two runs per page. -/
theorem pagination_collects_all_witness :
    get_workflow_runs [runSuccess, runFailure, runStale] 2 =
      some [runSuccess, runFailure, runStale] :=
  pagination_collects_all [runSuccess, runFailure, runStale] 2 (by decide)

/-- C8: `format_number` prints a whole number as the bare decimal string
of its integer value and any other value with exactly two decimal places;
in particular `format_number 100 = "100"` and the value 100/3 prints as
`"33.33"`. -/
theorem format_number_spec :
    (∀ q : ℚ, q.den = 1 → format_number q = toString q.num)
    ∧ format_number 100 = "100"
    ∧ format_number (100 / 3) = "33.33"
    ∧ format_number (1 / 2) = "0.50"
    ∧ format_number (1 / 20) = "0.05" := by
  refine ⟨?_, ?_, ?_, ?_, ?_⟩
  · intro q h
    unfold format_number
    rw [if_pos h]
  · decide
  · unfold format_number
    rw [if_neg (by norm_num),
      show roundHalfEven (100 * (100 / 3 : ℚ)) = 3333 from by
        rw [roundHalfEven_of_fract_lt _ (by norm_num [Int.fract])]
        norm_num]
    decide
  · unfold format_number
    rw [if_neg (by norm_num),
      show roundHalfEven (100 * (1 / 2 : ℚ)) = 50 from by
        rw [roundHalfEven_of_fract_lt _ (by norm_num [Int.fract])]
        norm_num]
    decide
  · unfold format_number
    rw [if_neg (by norm_num),
      show roundHalfEven (100 * (1 / 20 : ℚ)) = 5 from by
        rw [roundHalfEven_of_fract_lt _ (by norm_num [Int.fract])]
        norm_num]
    decide

/-- Witness for C8's whole-number branch at the value 42. -/
theorem format_number_spec_witness : format_number 42 = "42" := by
  have h := format_number_spec.1 42 (by decide)
  rw [h]
  decide

/-- C1: for every run that is not excluded as a manual run, processing it
increments the success count exactly when its conclusion is in
`{success, neutral, cancelled, skipped, action_required}`, increments the
failure count exactly when it is in `{failure, timed_out}`, and for any
other conclusion increments neither counter, while the run still counts
toward the total (counted upfront, never decremented here) and adds its
duration to the duration sum. -/
theorem run_classification (im : Bool) (st : AggState) (r : WorkflowRun)
    (h : isManualExcluded im r = false) :
    (processRun im st r).success =
      st.success + (if r.conclusion ∈ workflow_success_states then 1 else 0)
    ∧ (processRun im st r).fail =
      st.fail + (if r.conclusion ∈ workflow_failure_states then 1 else 0)
    ∧ (processRun im st r).total = st.total
    ∧ (processRun im st r).duration = st.duration + r.run_duration_ms.getD 0 := by
  have hf : ¬(isManualExcluded im r = true) := by simp [h]
  refine ⟨?_, ?_, ?_, ?_⟩
  · rw [processRun_success]
    unfold succInc
    rw [if_neg hf]
  · rw [processRun_fail]
    unfold failInc
    rw [if_neg hf]
    by_cases hs : r.conclusion ∈ workflow_success_states
    · rw [if_pos hs, if_neg (success_failure_disjoint _ hs)]
    · rw [if_neg hs]
  · rw [processRun_total]
    unfold totInc
    rw [if_neg hf]
    omega
  · rw [processRun_duration]
    unfold durInc
    rw [if_neg hf]

/-- Witness for C1 at the unclassified run `runStale`. -/
theorem run_classification_witness :
    (processRun false
        { total := 3, success := 0, fail := 0, duration := 0, deployers := [] }
        runStale).success = 0
    ∧ (processRun false
        { total := 3, success := 0, fail := 0, duration := 0, deployers := [] }
        runStale).total = 3 := by
  have h := run_classification false
    { total := 3, success := 0, fail := 0, duration := 0, deployers := [] }
    runStale (by decide)
  refine ⟨?_, h.2.2.1⟩
  rw [h.1]
  decide

/-- C2: a run triggered by `workflow_dispatch` with `--include-manual-runs`
unset is excluded from the total-run count (the total is decremented) and
from the success, failure and duration accumulations, but it is still
enumerated — its actor is entered into the workflow's deployers dict.
With the flag set, the run is included in every accumulation like any
other run. -/
theorem manual_run_exclusion (st : AggState) (r : WorkflowRun)
    (h : r.event = "workflow_dispatch") :
    ((processRun false st r).total = st.total - 1
      ∧ (processRun false st r).success = st.success
      ∧ (processRun false st r).fail = st.fail
      ∧ (processRun false st r).duration = st.duration
      ∧ hasKey (processRun false st r).deployers (actorOf r) = true)
    ∧ ((processRun true st r).total = st.total
      ∧ (processRun true st r).success =
          st.success + (if r.conclusion ∈ workflow_success_states then 1 else 0)
      ∧ (processRun true st r).fail =
          st.fail + (if r.conclusion ∈ workflow_failure_states then 1 else 0)
      ∧ (processRun true st r).duration =
          st.duration + r.run_duration_ms.getD 0) := by
  have hexc : isManualExcluded false r = true := by simp [isManualExcluded, h]
  have hincf : ¬(isManualExcluded true r = true) := by simp [isManualExcluded]
  constructor
  · refine ⟨?_, ?_, ?_, ?_, ?_⟩
    · rw [processRun_total]
      unfold totInc
      rw [if_pos hexc]
      omega
    · rw [processRun_success]
      unfold succInc
      rw [if_pos hexc]
      omega
    · rw [processRun_fail]
      unfold failInc
      rw [if_pos hexc]
      omega
    · rw [processRun_duration]
      unfold durInc
      rw [if_pos hexc]
      omega
    · rw [processRun_hasKey]
      simp
  · refine ⟨?_, ?_, ?_, ?_⟩
    · rw [processRun_total]
      unfold totInc
      rw [if_neg hincf]
      omega
    · rw [processRun_success]
      unfold succInc
      rw [if_neg hincf]
    · rw [processRun_fail]
      unfold failInc
      rw [if_neg hincf]
      by_cases hs : r.conclusion ∈ workflow_success_states
      · rw [if_pos hs, if_neg (success_failure_disjoint _ hs)]
      · rw [if_neg hs]
    · rw [processRun_duration]
      unfold durInc
      rw [if_neg hincf]

/-- Witness for C2 at the manual run `runManual`. -/
theorem manual_run_exclusion_witness :
    (processRun false
        { total := 5, success := 1, fail := 0, duration := 7, deployers := [] }
        runManual).total = 4
    ∧ (processRun true
        { total := 5, success := 1, fail := 0, duration := 7, deployers := [] }
        runManual).success = 2 := by
  have h := manual_run_exclusion
    { total := 5, success := 1, fail := 0, duration := 7, deployers := [] }
    runManual rfl
  refine ⟨?_, ?_⟩
  · rw [h.1.1]
    decide
  · rw [h.2.2.1]
    decide

/-- C4: when the total run count after manual-run exclusion is zero, the
success rate, failure rate and average duration are all set to zero and
no division is attempted (the stat builder is a total function); when the
total is nonzero, the average duration equals the sum of the counted
runs' durations divided by the total run count. -/
theorem zero_total_guard (im : Bool) (runs : List WorkflowRun) :
    ((aggregate im runs).total = 0 →
      (workflowStat im runs).success_rate = 0
      ∧ (workflowStat im runs).fail_rate = 0
      ∧ (workflowStat im runs).avg_duration_ms = 0)
    ∧ ((aggregate im runs).total ≠ 0 →
      (workflowStat im runs).avg_duration_ms =
        ((runs.map (durInc im)).sum : ℚ) / ((aggregate im runs).total : ℚ)) := by
  constructor
  · intro h
    simp [workflowStat, h]
  · intro h
    simp [workflowStat, h, aggregate_duration]

/-- Witness for C4 at a workflow whose only run is an excluded manual
run, so the total drops to zero. -/
theorem zero_total_guard_witness :
    (workflowStat false [runManual]).success_rate = 0
    ∧ (workflowStat false [runManual]).avg_duration_ms = 0 := by
  have h := zero_total_guard false [runManual]
  have h0 : (aggregate false [runManual]).total = 0 := by decide
  exact ⟨(h.1 h0).1, (h.1 h0).2.2⟩

/-- C3 (amended): for a workflow with at least one non-excluded run, the
formatted success rate and failure rate — each the binary64 quotient
`100.0 * count / total` formatted by `format_number` — sum to at most
100 + 1/100: one cent above 100.  The original bound of 100 and its
"equality exactly when every non-excluded run is classified" are refuted
by `rates_sum_counterexample`: with 1 success and 19999 failures out of
20000 runs, every run classified, the two independently rounded quotients
format to 0.01 and 100.00, summing to exactly 100.01. -/
theorem rates_sum_bound (im : Bool) (runs : List WorkflowRun)
    (h : ∃ r ∈ runs, isManualExcluded im r = false) :
    success_rate_fp im runs + fail_rate_fp im runs ≤ 100 + 1 / 100 := by
  have hn : 0 < runs.countP (fun r => !isManualExcluded im r) := by
    rw [List.countP_pos]
    obtain ⟨r, hr, hx⟩ := h
    exact ⟨r, hr, by simp [hx]⟩
  have htot := aggregate_total_countP im runs
  have ht : 0 < (aggregate im runs).total := by
    rw [htot]
    exact_mod_cast hn
  have hsf : ((aggregate im runs).success : Int) +
      ((aggregate im runs).fail : Int) ≤ (aggregate im runs).total := by
    have h2 : (aggregate im runs).success + (aggregate im runs).fail ≤
        runs.countP (fun r => !isManualExcluded im r) := by
      rw [aggregate_success, aggregate_fail]
      exact succ_fail_le_countP im runs
    rw [htot]
    exact_mod_cast h2
  unfold success_rate_fp fail_rate_fp
  exact rates_fp_key _ _ _ ht hsf

/-- Witness for C3 (amended) at the two-run workflow
`[runSuccess, runFailure]`. -/
theorem rates_sum_bound_witness :
    success_rate_fp false [runSuccess, runFailure] +
      fail_rate_fp false [runSuccess, runFailure] ≤ 100 + 1 / 100 :=
  rates_sum_bound false [runSuccess, runFailure]
    ⟨runSuccess, by decide, by decide⟩

/-- C3 counterexample: in the 20000-run workflow `overshootRuns` every
run's conclusion is classified, yet the formatted rates sum to 100.01.
The success quotient 100.0 * 1 / 20000 rounds in binary64 to the double
just above 0.005, which formats to 0.01; the failure quotient
100.0 * 19999 / 20000 rounds to the double just above 99.995, which
formats to 100.00.  So the claimed bound of 100 fails, and the sum also
differs from 100 although every run is classified. -/
theorem rates_sum_counterexample :
    (∀ r ∈ overshootRuns, isManualExcluded false r = false → classifiedRun r)
    ∧ success_rate_fp false overshootRuns + fail_rate_fp false overshootRuns =
        100 + 1 / 100 := by
  have hov : overshootRuns = runSuccess :: List.replicate 19999 runFailure := rfl
  constructor
  · intro r hr _
    rw [hov] at hr
    rcases List.mem_cons.mp hr with hr1 | hr2
    · rw [hr1]
      decide
    · rw [List.eq_of_mem_replicate hr2]
      decide
  · have e1 : succInc false runSuccess = 1 := by decide
    have e2 : succInc false runFailure = 0 := by decide
    have f1 : failInc false runSuccess = 0 := by decide
    have f2 : failInc false runFailure = 1 := by decide
    have t1 : totInc false runSuccess = 0 := by decide
    have t2 : totInc false runFailure = 0 := by decide
    have hsucc : (aggregate false overshootRuns).success = 1 := by
      rw [aggregate_success, hov, List.map_cons, List.map_replicate, e1, e2,
        List.sum_cons, List.sum_replicate, smul_eq_mul]
    have hfail : (aggregate false overshootRuns).fail = 19999 := by
      rw [aggregate_fail, hov, List.map_cons, List.map_replicate, f1, f2,
        List.sum_cons, List.sum_replicate, smul_eq_mul]
    have htot : (aggregate false overshootRuns).total = (20000 : Int) := by
      rw [aggregate_total, hov, List.map_cons, List.map_replicate, t1, t2,
        List.sum_cons, List.sum_replicate, smul_zero, List.length_cons,
        List.length_replicate]
      norm_num
    unfold success_rate_fp fail_rate_fp
    rw [hsucc, hfail, htot, doubleRate_one_20000, doubleRate_19999_20000,
      formatValue_success_overshoot, formatValue_failure_overshoot]
    norm_num

/-- C5: the organization-wide summary averages are the unweighted mean
over all recorded workflows — each stored workflow contributes exactly
one equally weighted term, whatever its run count; in particular, two
workflows with success rates 100 and 50 yield the summary average success
rate `"75"` for any contents of their remaining fields. -/
theorem summary_unweighted_mean
    (summary : List (String × List (String × WorkflowStat)))
    (h : (allStats summary).length ≠ 0) :
    overall_average_success_rate summary =
      some (format_number (unweightedMeanSpec
        ((allStats summary).map (fun p => p.2.success_rate))))
    ∧ overall_average_failure_rate summary =
      some (format_number (unweightedMeanSpec
        ((allStats summary).map (fun p => p.2.fail_rate))))
    ∧ overall_average_duration_ms summary =
      some (unweightedMeanSpec
        ((allStats summary).map (fun p => p.2.avg_duration_ms)))
    ∧ (∀ s₁ s₂ : WorkflowStat, ∀ repo w₁ w₂ : String,
        s₁.success_rate = 100 → s₂.success_rate = 50 →
        overall_average_success_rate [(repo, [(w₁, s₁), (w₂, s₂)])] =
          some "75") := by
  have h0 : (overall summary).workflow_count ≠ 0 := by
    unfold overall
    rw [overall_foldl_count]
    simpa using h
  refine ⟨?_, ?_, ?_, ?_⟩
  · simp only [overall_average_success_rate]
    rw [if_neg h0]
    congr 1
    unfold overall unweightedMeanSpec
    rw [overall_foldl_success, overall_foldl_count]
    simp
  · simp only [overall_average_failure_rate]
    rw [if_neg h0]
    congr 1
    unfold overall unweightedMeanSpec
    rw [overall_foldl_failure, overall_foldl_count]
    simp
  · simp only [overall_average_duration_ms]
    rw [if_neg h0]
    congr 1
    unfold overall unweightedMeanSpec
    rw [overall_foldl_duration, overall_foldl_count]
    simp
  · intro s₁ s₂ repo w₁ w₂ h1 h2
    have hall : allStats [(repo, [(w₁, s₁), (w₂, s₂)])] = [(w₁, s₁), (w₂, s₂)] := by
      simp [allStats]
    have hcnt : (overall [(repo, [(w₁, s₁), (w₂, s₂)])]).workflow_count = 2 := by
      unfold overall
      rw [hall, overall_foldl_count]
      rfl
    have hsum : (overall [(repo, [(w₁, s₁), (w₂, s₂)])]).success_sum = 150 := by
      unfold overall
      rw [hall, overall_foldl_success]
      simp [h1, h2]
      norm_num
    simp only [overall_average_success_rate]
    rw [hcnt, hsum, if_neg (by norm_num)]
    norm_num
    decide

/-- Witness for C5 at two concrete stat records with rates 100 and 50. -/
theorem summary_unweighted_mean_witness :
    overall_average_success_rate
      [("r", [("W1", statRate100), ("W2", statRate50)])] = some "75" :=
  (summary_unweighted_mean [("r", [("W1", statRate100), ("W2", statRate50)])]
    (by decide)).2.2.2 statRate100 statRate50 "r" "W1" "W2" rfl rfl

/-- C6: the organization-wide deployer totals sum actor counts only over
workflows whose summary key does not match the `Branch*` glob, and any
workflow whose NAME matches `Branch*` has a matching key, so its actor
counts are excluded from the rollup — while its own stat record still
carries them.  In the deployer-tally example, alice's 3 runs of
`Deploy Prod` and 2 runs of `Branch Deploy Staging` contribute exactly 3
to the organization summary, and the per-workflow records show 3 and 2. -/
theorem branch_rollup_exclusion :
    (∀ (summary : List (String × List (String × WorkflowStat))) (a : String),
      amount a (overall summary).deployers =
        ((allStats summary).map (fun p =>
          if branchGlob p.1 = true then 0 else amount a p.2.actors)).sum)
    ∧ (∀ name : String, branchGlob name = true →
        branchGlob (stripSpaces name) = true)
    ∧ amount "alice"
        (overall (buildSummary false (fun _ => true) demoRepos)).deployers = 3
    ∧ (allStats (buildSummary false (fun _ => true) demoRepos)).map
          (fun p => (p.1, amount "alice" p.2.actors)) =
        [("DeployProd", 3), ("BranchDeployStaging", 2)] := by
  refine ⟨?_, ?_, ?_, ?_⟩
  · intro summary a
    unfold overall
    rw [overall_foldl_amount (allStats summary) a
      { workflow_count := 0, success_sum := 0, failure_sum := 0,
        duration_sum := 0, run_count := 0, deployers := [] }
      (by simp [keysNodup])]
    simp [amount]
  · exact branchGlob_stripSpaces
  · decide
  · decide

/-- Witness for C6's name-to-key implication at `Branch Deploy Staging`. -/
theorem branch_rollup_exclusion_witness :
    branchGlob (stripSpaces "Branch Deploy Staging") = true :=
  branch_rollup_exclusion.2.1 "Branch Deploy Staging" (by decide)

/-- C9 (amended): an actor all of whose runs are manual dispatches, with
`--include-manual-runs` unset, is still entered into the workflow's
deployers dict with count 0 before each run is excluded, so the actor
appears in the per-workflow deployer record with count 0; and the actor
appears with count 0 in the organization-wide deployer totals provided
the workflow's space-stripped key does not match the `Branch*` rollup
exclusion.  The unconditional organization-wide half of the original
claim is refuted by `deployer_zero_count_counterexample`. -/
theorem deployer_zero_count (runs : List WorkflowRun) (a : String)
    (h1 : ∀ r ∈ runs, actorOf r = a → r.event = "workflow_dispatch")
    (h2 : ∃ r ∈ runs, actorOf r = a) :
    (a, 0) ∈ (aggregate false runs).deployers
    ∧ (∀ (repo nm : String) (pat : String → Bool),
        pat nm = true → branchGlob (stripSpaces nm) = false →
        (a, 0) ∈ (overall (buildSummary false pat
          [(repo, [{ name := nm, runs := runs }])])).deployers) := by
  have hnd := aggregate_deployers_nodup false runs
  have hkey : hasKey (aggregate false runs).deployers a = true := by
    rw [aggregate_hasKey, List.any_eq_true]
    obtain ⟨r, hr, ha⟩ := h2
    exact ⟨r, hr, by simp [ha]⟩
  have hamt : amount a (aggregate false runs).deployers = 0 := by
    rw [aggregate_amount]
    apply List.sum_eq_zero
    intro x hx
    rw [List.mem_map] at hx
    obtain ⟨r, hr, hxe⟩ := hx
    rw [← hxe]
    unfold actorInc
    by_cases hm : isManualExcluded false r = true
    · rw [if_pos hm]
    · rw [if_neg hm]
      by_cases hra : actorOf r = a
      · exact absurd (by simp [isManualExcluded, h1 r hr hra]) hm
      · rw [if_neg (by simpa using hra)]
  have hmem : (a, 0) ∈ (aggregate false runs).deployers :=
    mem_of_hasKey_amount_zero _ _ hnd hkey hamt
  refine ⟨hmem, ?_⟩
  intro repo nm pat hpat hnb
  have hlen : 0 < runs.length := by
    obtain ⟨r, hr, _⟩ := h2
    exact List.length_pos.mpr (List.ne_nil_of_mem hr)
  rw [buildSummary_single false pat repo { name := nm, runs := runs } hpat hlen]
  have hall : allStats [(repo, [(stripSpaces nm, workflowStat false runs)])] =
      [(stripSpaces nm, workflowStat false runs)] := by
    simp [allStats]
  unfold overall
  rw [hall, List.foldl_cons, List.foldl_nil, overallStep_deployers,
    if_neg (by simp [hnb]), workflowStat_actors]
  apply mem_of_hasKey_amount_zero
  · exact keysNodup_mergeActors _ _ (by simp [keysNodup])
  · rw [hasKey_mergeActors]
    have : (aggregate false runs).deployers.any (fun p => p.1 == a) = true := by
      rw [List.any_eq_true]
      exact ⟨(a, 0), hmem, by simp⟩
    simp [this]
  · rw [amount_mergeActors _ _ _ (by simp [keysNodup]), hamt]
    simp [amount]

/-- Witness for C9 (amended): alice's only run is manual, in a workflow
whose key does not match `Branch*`, so she appears with count 0 both in
the per-workflow record and in the organization totals. -/
theorem deployer_zero_count_witness :
    ("alice", 0) ∈ (aggregate false [manualAliceRun]).deployers
    ∧ ("alice", 0) ∈ (overall (buildSummary false (fun _ => true)
        [("repo", [{ name := "Deploy",
                     runs := [manualAliceRun] }])])).deployers := by
  have h := deployer_zero_count [manualAliceRun] "alice" (by decide) (by decide)
  exact ⟨h.1, h.2 "repo" "Deploy" (fun _ => true) rfl (by decide)⟩

/-- C9 counterexample: alice triggers only the excluded manual run of the
workflow named `Branch Deploy`.  She appears in the per-workflow deployer
record with count 0, but the rollup skips the whole workflow because its
key matches `Branch*`, so she does not appear in the organization-wide
deployer totals at all — refuting the claim's unconditional "appears in
the organization-wide deployer totals with a count of 0". -/
theorem deployer_zero_count_counterexample :
    ("alice", 0) ∈ (workflowStat false [manualAliceRun]).actors
    ∧ hasKey (overall (buildSummary false (fun _ => true)
        branchRepo)).deployers "alice" = false := by
  constructor
  · decide
  · decide

/-- C10: stat records are stored under the workflow name with every space
removed: two workflows of one repository whose names agree after space
stripping collide, the later stat record overwriting the earlier one; and
the rollup's `Branch*` glob is matched against the space-stripped key
rather than the original name — the workflow named `B ranch Deploy` does
not match the glob, yet its key `BranchDeploy` does, so it is excluded
from the deployer rollup. -/
theorem summary_key_space_stripping :
    (∀ (im : Bool) (pat : String → Bool) (repo : String) (w₁ w₂ : Workflow),
      pat w₁.name = true → pat w₂.name = true →
      0 < w₁.runs.length → 0 < w₂.runs.length →
      stripSpaces w₁.name = stripSpaces w₂.name →
      buildSummary im pat [(repo, [w₁, w₂])] =
        [(repo, [(stripSpaces w₁.name, workflowStat im w₂.runs)])])
    ∧ (branchGlob "B ranch Deploy" = false
       ∧ branchGlob (stripSpaces "B ranch Deploy") = true
       ∧ hasKey (overall (buildSummary false (fun _ => true)
            [("repo", [{ name := "B ranch Deploy",
                         runs := [aliceRun 1] }])])).deployers "alice" = false) := by
  constructor
  · intro im pat repo w₁ w₂ hp1 hp2 hl1 hl2 hkey
    simp [buildSummary, setRepoStat, setStat, hp1, hp2, hl1, hl2, hkey]
  · exact ⟨by decide, by decide, by decide⟩

/-- Witness for C10: the workflows `A B` and `AB` of one repository
collide on the stripped key `AB`, and only the later stat record
survives. -/
theorem summary_key_space_stripping_witness :
    buildSummary false (fun _ => true)
      [("r", [{ name := "A B", runs := [aliceRun 1] },
              { name := "AB", runs := [aliceRun 2] }])] =
      [("r", [(stripSpaces "A B", workflowStat false [aliceRun 2])])] :=
  summary_key_space_stripping.1 false (fun _ => true) "r"
    { name := "A B", runs := [aliceRun 1] }
    { name := "AB", runs := [aliceRun 2] }
    rfl rfl (by decide) (by decide) (by decide)

end GDM
